import Mathlib

/-!
Verification of the termchess board core: the dense per-square board with its
FEN text codec and pseudo-legal move generator (src/board.rs), and the compact
bitmask board (src/bit_board.rs).

Modelling conventions:
* Machine integers are modelled as `Nat` (unsigned) or `Int` (signed), with an
  explicit `% 2 ^ w` wherever the Rust code can overflow (release-profile
  wrapping semantics).
* Rust operations that can panic (array indexing, `unwrap`) are modelled as
  `Option`-returning functions; `none` models the panic.
* The primitive value types (`Piece`, `Move`, `Square`, the square/algebraic
  helpers) live outside the two given source files; they are modelled from the
  spec, as marked on each definition.
-/

namespace Termchess

/-- Modelled from the spec: the piece enumeration — 12 colored kinds
(pawn/knight/bishop/rook/queen/king × white/black) plus the dense
representation's explicit empty marker `Null`. The missing source is the
crate-root `Piece` type. -/
inductive Piece where
  | Null
  | PawnWhite
  | KnightWhite
  | BishopWhite
  | RookWhite
  | QueenWhite
  | KingWhite
  | PawnBlack
  | KnightBlack
  | BishopBlack
  | RookBlack
  | QueenBlack
  | KingBlack
deriving DecidableEq, Repr

/-- Modelled from the spec: the color predicate on pieces. The spec does not
assign a color to the empty marker; it is modelled as not-white. No confirmed
claim depends on this choice. -/
def Piece.is_white : Piece → Bool
  | .PawnWhite | .KnightWhite | .BishopWhite | .RookWhite | .QueenWhite | .KingWhite => true
  | _ => false

/-- Modelled from the spec: single-character FEN notation to piece (white
uppercase, black lowercase); unrecognized characters yield `none`. -/
def Piece.from_char (c : Char) : Option Piece :=
  if c = 'P' then some .PawnWhite
  else if c = 'N' then some .KnightWhite
  else if c = 'B' then some .BishopWhite
  else if c = 'R' then some .RookWhite
  else if c = 'Q' then some .QueenWhite
  else if c = 'K' then some .KingWhite
  else if c = 'p' then some .PawnBlack
  else if c = 'n' then some .KnightBlack
  else if c = 'b' then some .BishopBlack
  else if c = 'r' then some .RookBlack
  else if c = 'q' then some .QueenBlack
  else if c = 'k' then some .KingBlack
  else none

/-- Modelled from the spec: piece to single-character FEN notation. The spec
gives no character for the empty marker (it is never serialized); a space is
used. -/
def Piece.to_char : Piece → Char
  | .Null => ' '
  | .PawnWhite => 'P'
  | .KnightWhite => 'N'
  | .BishopWhite => 'B'
  | .RookWhite => 'R'
  | .QueenWhite => 'Q'
  | .KingWhite => 'K'
  | .PawnBlack => 'p'
  | .KnightBlack => 'n'
  | .BishopBlack => 'b'
  | .RookBlack => 'r'
  | .QueenBlack => 'q'
  | .KingBlack => 'k'

/-- A move: a plain from/to pair of square indices (u8 in the source; the
field `from` is renamed `from_` because `from` is reserved in Lean). -/
structure Move where
  from_ : Nat
  to_ : Nat
deriving DecidableEq, Repr

/-- Modelled from the spec: validated conversion of a signed square value to a
`Square`, rejecting any value outside 0–63 (the crate-root `to_board_square`
helper). -/
def to_board_square (s : Int) : Option Nat :=
  if 0 ≤ s ∧ s ≤ 63 then some s.toNat else none

/-- Rust `u8::try_from(s).ok()` on an `i8`-ranged value. -/
def u8_try_from (s : Int) : Option Nat :=
  if 0 ≤ s ∧ s ≤ 255 then some s.toNat else none

/-- Rust `str::split_whitespace` over the character list: maximal runs of
non-whitespace characters, no empty pieces. Structural recursion (the current
run is the second argument, reversed) so that proofs can evaluate it. -/
def split_whitespace_aux : List Char → List Char → List (List Char)
  | [], acc => if acc.isEmpty then [] else [acc.reverse]
  | c :: rest, acc =>
    if c.isWhitespace then
      if acc.isEmpty then split_whitespace_aux rest []
      else acc.reverse :: split_whitespace_aux rest []
    else split_whitespace_aux rest (c :: acc)

/-- Rust `str::split_whitespace`. -/
def split_whitespace (cs : List Char) : List (List Char) :=
  split_whitespace_aux cs []

/-- Rust `str::split(sep)` over the character list: pieces between separator
occurrences, empty pieces included. -/
def split_on_char_aux (sep : Char) : List Char → List Char → List (List Char)
  | [], acc => [acc.reverse]
  | c :: rest, acc =>
    if c = sep then acc.reverse :: split_on_char_aux sep rest []
    else split_on_char_aux sep rest (c :: acc)

/-- Rust `str::split(sep)`. -/
def split_on_char (sep : Char) (cs : List Char) : List (List Char) :=
  split_on_char_aux sep cs []

/-- Modelled from the spec: algebraic-notation parsing to a square index
(crate-root `square_from_algebraic`); `a1` is 0, `h8` is 63. Malformed input
is modelled as `none` (the spec's InvalidEnPassantSquare abort). -/
def square_from_algebraic (s : List Char) : Option Nat :=
  match s with
  | [f, r] =>
    if 'a' ≤ f ∧ f ≤ 'h' ∧ '1' ≤ r ∧ r ≤ '8' then
      some ((r.toNat - 49) * 8 + (f.toNat - 97))
    else none
  | _ => none

/-- Modelled from the spec: square index to algebraic notation (crate-root
`square_to_algebraic`). -/
def square_to_algebraic (sq : Nat) : List Char :=
  [Char.ofNat (97 + sq % 8), Char.ofNat (49 + sq / 8)]

/-- Rust `char::from_digit(n, 10)`. -/
def char_from_digit (n : Nat) : Option Char :=
  if n < 10 then some (Char.ofNat (48 + n)) else none

/-- Rust `str::parse::<u32>()`: an optional leading plus sign, then one or
more decimal digits, value below `2 ^ 32`. -/
def parse_u32 (cs : List Char) : Option Nat :=
  let t := match cs with
    | '+' :: rest => rest
    | _ => cs
  if t ≠ [] ∧ t.all Char.isDigit then
    let v := t.foldl (fun a c => a * 10 + (c.toNat - 48)) 0
    if v < 2 ^ 32 then some v else none
  else none

/-- The dense board of src/board.rs: a 64-slot array of `Piece` (modelled as a
total function on `Fin 64`, matching `[Piece; 64]`) plus full scalar game
state. -/
structure Board where
  pieces : Fin 64 → Piece
  white_to_move : Bool
  en_pessant_square : Option Nat
  can_white_castle_king_side : Bool
  can_white_castle_queen_side : Bool
  can_black_castle_king_side : Bool
  can_black_castle_queen_side : Bool
  half_move_clock : Nat
  full_move_counter : Nat

/-- `Board::blank`: no pieces placed, default scalar state. -/
def Board.blank : Board where
  pieces := fun _ => Piece.Null
  white_to_move := true
  en_pessant_square := none
  can_white_castle_king_side := true
  can_white_castle_queen_side := true
  can_black_castle_king_side := true
  can_black_castle_queen_side := true
  half_move_clock := 0
  full_move_counter := 0

/-- `Board::at`: `self.pieces.get(square as usize).copied()` — `some` for
in-range indices (the empty marker included), `none` beyond 63. -/
def Board.at_ (b : Board) (square : Nat) : Option Piece :=
  if h : square < 64 then some (b.pieces ⟨square, h⟩) else none

/-- `Board::is_empty`: the square is in range and holds the empty marker. -/
def Board.is_empty (b : Board) (square : Nat) : Bool :=
  match b.at_ square with
  | some other => other == Piece.Null
  | none => false

/-- The write `self.pieces[at as usize] = piece`; `none` models the
out-of-bounds panic. -/
def setPiece (ps : Fin 64 → Piece) (i : Nat) (p : Piece) : Option (Fin 64 → Piece) :=
  if h : i < 64 then some (Function.update ps ⟨i, h⟩ p) else none

/-- `Board::place`. -/
def Board.place (b : Board) (piece : Piece) (at_ : Nat) : Option Board :=
  (setPiece b.pieces at_ piece).map fun ps => { b with pieces := ps }

/-- `Board::clear`. -/
def Board.clear (b : Board) (square : Nat) : Option Board :=
  b.place Piece.Null square

/-- `Board::apply` (src/board.rs lines 214–245). The u8 subtraction
`move.to - move.from` and the u32 clock increments wrap (release semantics);
the array writes can panic for out-of-range squares, modelled by `none`. -/
def Board.apply (b : Board) (m : Move) : Option Board :=
  let is_capture := !(b.is_empty m.to_)
  match b.at_ m.from_ with
  | none => some b
  | some p =>
    (setPiece b.pieces m.from_ Piece.Null).bind fun ps1 =>
    (setPiece ps1 m.to_ p).map fun ps2 =>
      let is_pawn_move := p == Piece.PawnWhite || p == Piece.PawnBlack
      let half := if is_pawn_move || is_capture then 0 else (b.half_move_clock + 1) % 2 ^ 32
      let ep :=
        if is_pawn_move then
          if (m.to_ % 256 + 256 - m.from_ % 256) % 256 == 16 then some ((m.from_ + 8) % 256)
          else b.en_pessant_square
        else none
      let wtm := !b.white_to_move
      let fmc := if wtm then (b.full_move_counter + 1) % 2 ^ 32 else b.full_move_counter
      { b with
          pieces := ps2
          half_move_clock := half
          en_pessant_square := ep
          white_to_move := wtm
          full_move_counter := fmc }

/-- One rank of the FEN placement field (the inner loop of `from_fen`):
digits 1–8 advance the file (u8 wrapping add), letters go through
`Piece::from_char` and are placed at `rank * 8 + file` (u8 wrapping);
an unrecognized character or an out-of-range placement is a panic (`none`). -/
def parsePlacementRank (b : Board) (rank : Nat) (s : List Char) : Option Board :=
  (s.foldlM
    (fun (acc : Board × Nat) c =>
      if '1' ≤ c ∧ c ≤ '8' then
        some (acc.1, (acc.2 + (c.toNat - 48)) % 256)
      else
        match Piece.from_char c with
        | some valid =>
          (acc.1.place valid ((rank * 8 + acc.2) % 256)).map fun b2 => (b2, (acc.2 + 1) % 256)
        | none => none)
    (b, 0)).map Prod.fst

/-- `Board::from_fen` (src/board.rs lines 35–116). Panics are modelled as
`none`. Note the unconditional reads of fields 5 and 6 at the end (source
lines 112–113), reached for any accepted field count. -/
def Board.from_fen (fen : String) : Option Board := do
  let fields := split_whitespace fen.toList
  if fields.length > 6 ∨ fields.length < 4 then none else do
  let placement ← fields.get? 0
  let b ← (split_on_char '/' placement).enum.foldlM
    (fun (b : Board) (p : Nat × List Char) =>
      parsePlacementRank b ((263 - p.1 % 256) % 256) p.2)
    Board.blank
  let side ← fields.get? 1
  let b ←
    if side = ['w'] then some { b with white_to_move := true }
    else if side = ['b'] then some { b with white_to_move := false }
    else none
  let castling ← fields.get? 2
  let b := if castling.contains 'K' then { b with can_white_castle_king_side := true } else b
  let b := if castling.contains 'Q' then { b with can_white_castle_queen_side := true } else b
  let b := if castling.contains 'k' then { b with can_black_castle_king_side := true } else b
  let b := if castling.contains 'q' then { b with can_black_castle_queen_side := true } else b
  let ep ← fields.get? 3
  let b ←
    if ep = ['-'] then some { b with en_pessant_square := none }
    else (square_from_algebraic ep).map fun square => { b with en_pessant_square := some square }
  let f4 ← fields.get? 4
  let half ← parse_u32 f4
  let f5 ← fields.get? 5
  let full ← parse_u32 f5
  pure { b with half_move_clock := half, full_move_counter := full }

/-- One rank of `to_fen`'s placement generation: run-length compression of
empty squares. -/
def fenRank (b : Board) (r : Nat) : Option (List Char) := do
  let (s, cnt) ← (List.range 8).foldlM
    (fun (acc : List Char × Nat) f =>
      match b.at_ (r * 8 + f) with
      | some Piece.Null => some (acc.1, acc.2 + 1)
      | some piece =>
        if acc.2 > 0 then
          (char_from_digit acc.2).map fun c => (acc.1 ++ [c, piece.to_char], 0)
        else some (acc.1 ++ [piece.to_char], 0)
      | none => some acc)
    ([], 0)
  if cnt > 0 then (char_from_digit cnt).map fun c => s ++ [c] else some s

/-- `Board::to_fen` (src/board.rs lines 119–201), building the character
list. The clock and counter are emitted through
`char::from_digit(_, 10).unwrap()`, which panics (`none`) for values above
9 — the documented single-digit serialization defect. -/
def Board.to_fen (b : Board) : Option String := do
  let fen ← (List.range 8).reverse.foldlM
    (fun (s : List Char) r => (fenRank b r).map fun rs => s ++ rs ++ ['/']) []
  let fen := fen.dropLast
  let fen := if b.white_to_move then fen ++ [' ', 'w'] else fen ++ [' ', 'b']
  let fen := fen ++ [' ']
  let fen := if b.can_white_castle_king_side then fen ++ ['K'] else fen
  let fen := if b.can_white_castle_queen_side then fen ++ ['Q'] else fen
  let fen := if b.can_black_castle_king_side then fen ++ ['k'] else fen
  let fen := if b.can_black_castle_queen_side then fen ++ ['q'] else fen
  let cant_castle := !b.can_white_castle_king_side && !b.can_white_castle_queen_side
      && !b.can_black_castle_king_side && !b.can_black_castle_queen_side
  let fen := if cant_castle then fen ++ ['-'] else fen
  let fen := fen ++ [' ']
  let fen :=
    match b.en_pessant_square with
    | none => fen ++ ['-']
    | some square => fen ++ square_to_algebraic square
  let fen := fen ++ [' ']
  let c1 ← char_from_digit b.half_move_clock
  let fen := fen ++ [c1, ' ']
  let c2 ← char_from_digit b.full_move_counter
  pure (String.mk (fen ++ [c2]))

/-- Rust `at as i8`: reinterpret a u8 value as a signed byte. -/
def i8_of_u8 (n : Nat) : Int :=
  if n % 256 < 128 then (n % 256 : Nat) else (n % 256 : Nat) - 256

/-- The ray-walking loop body shared by `orthogonal_moves` and
`diagonal_moves`: given the squares of one ray in walking order, push each
square the board reports unoccupied (`at` returning `None`), and stop at the
first square reported occupied, including it only when the occupant's color
differs from the mover's. -/
def walk_ray (b : Board) (piece : Piece) : List Nat → List Nat
  | [] => []
  | square :: rest =>
    match b.at_ square with
    | some other => if other.is_white != piece.is_white then [square] else []
    | none => square :: walk_ray b piece rest

/-- `orthogonal_moves` (src/board.rs lines 418–481): the four orthogonal rays,
in source order left, right, down, up. -/
def orthogonal_moves (b : Board) (piece : Piece) (at_ : Nat) : List Nat :=
  let rank := at_ / 8
  let file := at_ % 8
  walk_ray b piece ((List.range file).reverse.map fun f => rank * 8 + f) ++
  walk_ray b piece ((List.range' (file + 1) (8 - (file + 1))).map fun f => rank * 8 + f) ++
  walk_ray b piece ((List.range rank).reverse.map fun r => r * 8 + file) ++
  walk_ray b piece ((List.range' (rank + 1) (8 - (rank + 1))).map fun r => r * 8 + file)

/-- `diagonal_moves` (src/board.rs lines 483–509): the source contains a
single loop stepping `r += 1; f += 1` until leaving the board — only the
up-right diagonal ray is walked; no other diagonal direction appears. -/
def diagonal_moves (b : Board) (piece : Piece) (at_ : Nat) : List Nat :=
  let rank := at_ / 8
  let file := at_ % 8
  walk_ray b piece
    ((List.range (min (7 - rank) (7 - file))).map fun i => (rank + i + 1) * 8 + (file + i + 1))

/-- `generate_piece_moves` (src/board.rs lines 296–416). -/
def generate_piece_moves (b : Board) (piece : Piece) (at_ : Nat) : List Nat :=
  match piece with
  | .Null => []
  | .PawnWhite | .PawnBlack =>
    let rank : Int := Int.tdiv (i8_of_u8 at_) 8
    let file : Int := Int.tmod (i8_of_u8 at_) 8
    let direction : Int := if piece.is_white then 1 else -1
    let new_rank := rank + direction
    let candidates : List Int := if new_rank < 8 ∧ new_rank > 0 then [new_rank * 8 + file] else []
    let candidates :=
      if (piece.is_white = true ∧ rank = 1) ∨ (piece.is_white = false ∧ rank = 6) then
        candidates ++ [(rank + 2 * direction) * 8 + file]
      else candidates
    let moves := (candidates.filterMap to_board_square).filter fun square => b.is_empty square
    let captures :=
      (([(rank + direction) * 8 + file + 1,
         (rank + direction) * 8 + file - 1].filterMap to_board_square).filter
        fun square =>
          match b.at_ square with
          | some other => other != Piece.Null && other.is_white != piece.is_white
          | none => false)
    moves ++ captures
  | .KnightWhite | .KnightBlack =>
    let rank : Int := Int.tdiv (i8_of_u8 at_) 8
    let file : Int := Int.tmod (i8_of_u8 at_) 8
    let cands : List (Bool × Int) := [
      (decide (rank < 6 ∧ file < 7), (rank + 2) * 8 + file + 1),
      (decide (rank < 6 ∧ file > 0), (rank + 2) * 8 + file - 1),
      (decide (rank > 2 ∧ file < 7), (rank - 2) * 8 + file + 1),
      (decide (rank > 2 ∧ file > 0), (rank - 2) * 8 + file - 1),
      (decide (rank < 7 ∧ file > 2), (rank + 1) * 8 + file - 2),
      (decide (rank > 0 ∧ file > 2), (rank - 1) * 8 + file - 2),
      (decide (rank < 7 ∧ file < 6), (rank + 1) * 8 + file + 2),
      (decide (rank > 0 ∧ file < 6), (rank - 1) * 8 + file + 2)]
    (cands.filterMap fun hs => if hs.1 then u8_try_from hs.2 else none).filter
      fun square =>
        match b.at_ square with
        | some Piece.Null => true
        | some other => other.is_white != piece.is_white
        | none => false
  | .KingWhite | .KingBlack =>
    let rank : Int := Int.tdiv (i8_of_u8 at_) 8
    let file : Int := Int.tmod (i8_of_u8 at_) 8
    let left := decide (file > 0)
    let right := decide (file < 7)
    let top := decide (rank < 7)
    let bottom := decide (rank > 0)
    let cands : List (Bool × Int) := [
      (top && right, (rank + 1) * 8 + file + 1),
      (top && left, (rank + 1) * 8 + file - 1),
      (top, (rank + 1) * 8 + file),
      (left, rank * 8 + file - 1),
      (right, rank * 8 + file + 1),
      (bottom && right, (rank - 1) * 8 + file + 1),
      (bottom && left, (rank - 1) * 8 + file - 1),
      (bottom, (rank - 1) * 8 + file)]
    (cands.filterMap fun hs => if hs.1 then u8_try_from hs.2 else none).filter
      fun square =>
        match b.at_ square with
        | some other => other.is_white != piece.is_white
        | none => true
  | .RookWhite | .RookBlack => orthogonal_moves b piece at_
  | .BishopWhite | .BishopBlack => diagonal_moves b piece at_
  | .QueenWhite | .QueenBlack => orthogonal_moves b piece at_ ++ diagonal_moves b piece at_

/-- `Board::generate_moves` (src/board.rs lines 265–292): scan ranks 7 down to
0, files 0 to 7; for squares whose occupant's color matches the side to move,
emit one `Move` per generated destination. -/
def Board.generate_moves (b : Board) : List Move :=
  (List.range 8).reverse.foldl
    (fun moves rank =>
      (List.range 8).foldl
        (fun moves file =>
          let square := rank * 8 + file
          match b.at_ square with
          | some piece =>
            if b.white_to_move == piece.is_white then
              moves ++ (generate_piece_moves b piece square).map fun target => ⟨square, target⟩
            else moves
          | none => moves)
        moves)
    []

/-- The compact bitmask board of src/bit_board.rs: twelve 64-bit occupancy
masks (u64 modelled as `Nat`; every operation keeps them below `2 ^ 64`) plus
the side-to-move flag. -/
structure BitBoard where
  pawns_white : Nat
  bishops_white : Nat
  knights_white : Nat
  rooks_white : Nat
  king_white : Nat
  queen_white : Nat
  pawns_black : Nat
  bishops_black : Nat
  knights_black : Nat
  rooks_black : Nat
  king_black : Nat
  queen_black : Nat
  white_to_move : Bool
deriving DecidableEq, Repr

/-- `BitBoard::blank`. -/
def BitBoard.blank : BitBoard where
  pawns_white := 0
  bishops_white := 0
  knights_white := 0
  rooks_white := 0
  king_white := 0
  queen_white := 0
  pawns_black := 0
  bishops_black := 0
  knights_black := 0
  rooks_black := 0
  king_black := 0
  queen_black := 0
  white_to_move := true

/-- Rust `1u64 << square` (release shift semantics: the shift amount is
masked to the bit width). -/
def bitMask (square : Nat) : Nat := 1 <<< (square % 64)

/-- Rust `!(1u64 << square)`: bitwise complement within u64. -/
def clearMask (square : Nat) : Nat := (2 ^ 64 - 1) ^^^ bitMask square

/-- `BitBoard::clear` (src/bit_board.rs lines 108–122): clear the square's
bit in all twelve masks. -/
def BitBoard.clear (b : BitBoard) (square : Nat) : BitBoard :=
  let mask := clearMask square
  { b with
      pawns_black := b.pawns_black &&& mask
      bishops_black := b.bishops_black &&& mask
      knights_black := b.knights_black &&& mask
      rooks_black := b.rooks_black &&& mask
      king_black := b.king_black &&& mask
      queen_black := b.queen_black &&& mask
      pawns_white := b.pawns_white &&& mask
      bishops_white := b.bishops_white &&& mask
      knights_white := b.knights_white &&& mask
      rooks_white := b.rooks_white &&& mask
      king_white := b.king_white &&& mask
      queen_white := b.queen_white &&& mask }

/-- `BitBoard::place` (src/bit_board.rs lines 124–142): clear the target
square across all masks, then set the bit in the moved piece's mask. The
compact board's piece domain has no empty marker (the source match has twelve
arms); placing the dense empty marker is modelled as the bare clear. -/
def BitBoard.place (b : BitBoard) (piece : Piece) (at_ : Nat) : BitBoard :=
  let b := b.clear at_
  let mask := bitMask at_
  match piece with
  | .PawnWhite => { b with pawns_white := b.pawns_white ||| mask }
  | .KnightWhite => { b with knights_white := b.knights_white ||| mask }
  | .BishopWhite => { b with bishops_white := b.bishops_white ||| mask }
  | .RookWhite => { b with rooks_white := b.rooks_white ||| mask }
  | .QueenWhite => { b with queen_white := b.queen_white ||| mask }
  | .KingWhite => { b with king_white := b.king_white ||| mask }
  | .PawnBlack => { b with pawns_black := b.pawns_black ||| mask }
  | .KnightBlack => { b with knights_black := b.knights_black ||| mask }
  | .BishopBlack => { b with bishops_black := b.bishops_black ||| mask }
  | .RookBlack => { b with rooks_black := b.rooks_black ||| mask }
  | .QueenBlack => { b with queen_black := b.queen_black ||| mask }
  | .KingBlack => { b with king_black := b.king_black ||| mask }
  | .Null => b

/-- `BitBoard::at` (src/bit_board.rs lines 155–184): test the twelve masks in
the source's fixed priority order. -/
def BitBoard.at_ (b : BitBoard) (square : Nat) : Option Piece :=
  let mask := bitMask square
  if b.pawns_white &&& mask ≥ 1 then some .PawnWhite
  else if b.pawns_black &&& mask ≥ 1 then some .PawnBlack
  else if b.knights_white &&& mask ≥ 1 then some .KnightWhite
  else if b.knights_black &&& mask ≥ 1 then some .KnightBlack
  else if b.bishops_white &&& mask ≥ 1 then some .BishopWhite
  else if b.bishops_black &&& mask ≥ 1 then some .BishopBlack
  else if b.rooks_white &&& mask ≥ 1 then some .RookWhite
  else if b.rooks_black &&& mask ≥ 1 then some .RookBlack
  else if b.queen_white &&& mask ≥ 1 then some .QueenWhite
  else if b.queen_black &&& mask ≥ 1 then some .QueenBlack
  else if b.king_white &&& mask ≥ 1 then some .KingWhite
  else if b.king_black &&& mask ≥ 1 then some .KingBlack
  else none

/-- `BitBoard::apply` (src/bit_board.rs lines 145–152): look up the occupant
of `from`; if present, clear `from` and place it at `to`. -/
def BitBoard.apply (b : BitBoard) (m : Move) : BitBoard :=
  match b.at_ m.from_ with
  | some from_piece => (b.clear m.from_).place from_piece m.to_
  | none => b

/-- The mask field owned by a piece kind (the empty marker owns none). -/
def BitBoard.maskOf (b : BitBoard) : Piece → Nat
  | .Null => 0
  | .PawnWhite => b.pawns_white
  | .KnightWhite => b.knights_white
  | .BishopWhite => b.bishops_white
  | .RookWhite => b.rooks_white
  | .QueenWhite => b.queen_white
  | .KingWhite => b.king_white
  | .PawnBlack => b.pawns_black
  | .KnightBlack => b.knights_black
  | .BishopBlack => b.bishops_black
  | .RookBlack => b.rooks_black
  | .QueenBlack => b.queen_black
  | .KingBlack => b.king_black

/-- One mutation step on the compact board: a `place`, `clear` or `apply`
call. -/
inductive BBOp where
  | place (piece : Piece) (square : Nat)
  | clear (square : Nat)
  | apply (m : Move)

/-- Run one mutation step. -/
def BitBoard.runOp (b : BitBoard) : BBOp → BitBoard
  | .place piece square => b.place piece square
  | .clear square => b.clear square
  | .apply m => b.apply m

/-- Run a finite sequence of mutation steps, oldest first. -/
def BitBoard.runOps (b : BitBoard) (ops : List BBOp) : BitBoard :=
  ops.foldl BitBoard.runOp b

/-! ### Disjointness of the compact board's masks -/

/-- The twelve masks are pairwise disjoint: any board square's bit is set in
the mask of at most one piece kind. -/
def DisjointMasks (b : BitBoard) : Prop :=
  ∀ i : Nat, i < 64 → ∀ p q : Piece,
    (b.maskOf p).testBit i = true → (b.maskOf q).testBit i = true → p = q

theorem testBit_bitMask (square i : Nat) :
    (bitMask square).testBit i = decide (i = square % 64) := by
  rw [bitMask, Nat.one_shiftLeft, Nat.testBit_two_pow]
  simp [eq_comm]

theorem testBit_clearMask (square i : Nat) (hi : i < 64) :
    (clearMask square).testBit i = !(decide (i = square % 64)) := by
  rw [clearMask, Nat.testBit_xor, Nat.testBit_two_pow_sub_one, testBit_bitMask]
  simp [hi]

theorem maskOf_clear (b : BitBoard) (square : Nat) (p : Piece) :
    (b.clear square).maskOf p = b.maskOf p &&& clearMask square := by
  cases p <;> simp [BitBoard.clear, BitBoard.maskOf]

theorem maskOf_place (b : BitBoard) (pc : Piece) (square : Nat) (p : Piece) :
    (b.place pc square).maskOf p =
      if p = pc ∧ p ≠ Piece.Null then (b.clear square).maskOf p ||| bitMask square
      else (b.clear square).maskOf p := by
  cases pc <;> cases p <;> simp [BitBoard.place, BitBoard.maskOf, BitBoard.clear]

theorem testBit_maskOf_clear (b : BitBoard) (square : Nat) (p : Piece) (i : Nat) (hi : i < 64) :
    ((b.clear square).maskOf p).testBit i
      = ((b.maskOf p).testBit i && !(decide (i = square % 64))) := by
  rw [maskOf_clear, Nat.testBit_land, testBit_clearMask square i hi]

theorem disjoint_blank : DisjointMasks BitBoard.blank := by
  intro i hi p q hp hq
  cases p <;> simp [BitBoard.maskOf, BitBoard.blank] at hp

theorem disjoint_clear (b : BitBoard) (square : Nat) (h : DisjointMasks b) :
    DisjointMasks (b.clear square) := by
  intro i hi p q hp hq
  rw [testBit_maskOf_clear b square _ i hi, Bool.and_eq_true] at hp hq
  exact h i hi p q hp.1 hq.1

theorem disjoint_place (b : BitBoard) (pc : Piece) (square : Nat) (h : DisjointMasks b) :
    DisjointMasks (b.place pc square) := by
  intro i hi p q hp hq
  rw [maskOf_place] at hp hq
  by_cases hip : i = square % 64
  · have forced : ∀ r : Piece,
        ((if r = pc ∧ r ≠ Piece.Null then (b.clear square).maskOf r ||| bitMask square
          else (b.clear square).maskOf r)).testBit i = true → r = pc := by
      intro r hr
      by_cases hc : r = pc ∧ r ≠ Piece.Null
      · exact hc.1
      · rw [if_neg hc, testBit_maskOf_clear b square r i hi] at hr
        simp [hip] at hr
    rw [forced p hp, forced q hq]
  · have reduce : ∀ r : Piece,
        ((if r = pc ∧ r ≠ Piece.Null then (b.clear square).maskOf r ||| bitMask square
          else (b.clear square).maskOf r)).testBit i = true → (b.maskOf r).testBit i = true := by
      intro r hr
      by_cases hc : r = pc ∧ r ≠ Piece.Null
      · rw [if_pos hc, Nat.testBit_lor, testBit_maskOf_clear b square r i hi,
            testBit_bitMask] at hr
        simp [hip] at hr
        exact hr
      · rw [if_neg hc, testBit_maskOf_clear b square r i hi] at hr
        simp [hip] at hr
        exact hr
    exact h i hi p q (reduce p hp) (reduce q hq)

theorem disjoint_runOp (b : BitBoard) (op : BBOp) (h : DisjointMasks b) :
    DisjointMasks (b.runOp op) := by
  cases op with
  | place piece square => exact disjoint_place b piece square h
  | clear square => exact disjoint_clear b square h
  | apply m =>
    show DisjointMasks (b.apply m)
    unfold BitBoard.apply
    cases b.at_ m.from_ with
    | none => exact h
    | some p => exact disjoint_place _ p _ (disjoint_clear b _ h)

theorem disjoint_runOps (ops : List BBOp) :
    ∀ b : BitBoard, DisjointMasks b → DisjointMasks (b.runOps ops) := by
  induction ops with
  | nil => intro b h; exact h
  | cons op rest ih => intro b h; exact ih (b.runOp op) (disjoint_runOp b op h)

/-! ### Concrete positions used by the claim theorems -/

/-- The standard starting position record. -/
def startFen : String := "rnbqkbnr/pppppppp/8/8/8/8/PPPPPPPP/RNBQKBNR w KQkq - 0 1"

/-- The dense board parsed from the standard starting position. -/
def startBoard : Board := (Board.from_fen startFen).getD Board.blank

/-- A white bishop on d4 (square 27) and a black pawn on c3 (square 18),
otherwise empty. -/
def boardC1 : Board :=
  { Board.blank with
      pieces := fun i =>
        if i.val = 27 then Piece.BishopWhite
        else if i.val = 18 then Piece.PawnBlack
        else Piece.Null }

/-- A black pawn on e7 (square 52), black to move, otherwise empty. -/
def boardC4 : Board :=
  { Board.blank with
      white_to_move := false
      pieces := fun i => if i.val = 52 then Piece.PawnBlack else Piece.Null }

/-- A white pawn on a2 (square 8) with a stale en-passant target (square 20)
already recorded, otherwise empty. -/
def boardC4s : Board :=
  { Board.blank with
      en_pessant_square := some 20
      pieces := fun i => if i.val = 8 then Piece.PawnWhite else Piece.Null }

/-- A white pawn on a4 (square 24) and a black pawn on h4 (square 31),
otherwise empty. -/
def boardC8 : Board :=
  { Board.blank with
      pieces := fun i =>
        if i.val = 24 then Piece.PawnWhite
        else if i.val = 31 then Piece.PawnBlack
        else Piece.Null }

/-! ### Claim theorems -/

/-- C1: the claim says the sliding generator covers all four diagonal rays.
The source's `diagonal_moves` contains a single loop stepping `r += 1; f += 1`
— only the up-right ray. At the failing input (white bishop on d4 = 27, black
pawn on c3 = 18) the claimed down-left capture destination 18 is never
generated: the entire bishop result is `[36]` (and even the up-right ray stops
at its first square, because the dense board's `at` reports `Some(Null)` for
an empty in-range square, which the ray walker treats as an occupant). -/
theorem C1_diagonal_ray_coverage_failure :
    diagonal_moves boardC1 Piece.BishopWhite 27 = [36] ∧
    generate_piece_moves boardC1 Piece.BishopWhite 27 = [36] ∧
    18 ∉ generate_piece_moves boardC1 Piece.BishopWhite 27 := by decide

/-- C2: for in-range from/to squares, `apply` reaches no panic branch (its
model returns `some`), and the occupancy lookup succeeds on both squares;
`is_empty` is a plain total function of the model. The u8 subtraction inside
`apply` wraps (release semantics) rather than failing on a black pawn move. -/
theorem C2_apply_total_in_range (b : Board) (m : Move)
    (hf : m.from_ < 64) (ht : m.to_ < 64) :
    (b.apply m).isSome = true ∧
    (b.at_ m.from_).isSome = true ∧
    (b.at_ m.to_).isSome = true := by
  refine ⟨?_, ?_, ?_⟩
  · simp [Board.apply, Board.at_, setPiece, hf, ht]
  · simp [Board.at_, hf]
  · simp [Board.at_, ht]

theorem C2_apply_total_in_range_witness :
    (⟨0, 1⟩ : Move).from_ < 64 ∧ (⟨0, 1⟩ : Move).to_ < 64 ∧
    ((Board.blank.apply ⟨0, 1⟩).isSome = true ∧
     (Board.blank.at_ (⟨0, 1⟩ : Move).from_).isSome = true ∧
     (Board.blank.at_ (⟨0, 1⟩ : Move).to_).isSome = true) :=
  ⟨by decide, by decide, C2_apply_total_in_range Board.blank ⟨0, 1⟩ (by decide) (by decide)⟩

/-- C3 counterexample: for an in-range empty from-square, `apply` is not a
no-op. On the blank board (square 0 empty) the move 0→1 still toggles
side-to-move and increments the half-move clock, because the dense `at`
returns `Some(Null)` — not `None` — for an empty in-range square, so the
piece-present branch runs with the empty marker. -/
theorem C3_empty_from_not_noop :
    Board.blank.is_empty 0 = true ∧
    Board.blank.white_to_move = true ∧
    (Board.blank.apply ⟨0, 1⟩).map Board.white_to_move = some false ∧
    Board.blank.half_move_clock = 0 ∧
    (Board.blank.apply ⟨0, 1⟩).map Board.half_move_clock = some 1 := by decide

/-- C3 (amended): `apply` is a no-op exactly when the from-square lookup
returns `None`, which for the dense board means the from index is out of
range (≥ 64), not that the square is empty. -/
theorem C3_apply_noop_when_lookup_none (b : Board) (m : Move) (h : 64 ≤ m.from_) :
    b.apply m = some b := by
  have h2 : ¬ m.from_ < 64 := by omega
  simp [Board.apply, Board.at_, h2]

theorem C3_apply_noop_when_lookup_none_witness :
    64 ≤ (⟨64, 0⟩ : Move).from_ ∧ Board.blank.apply ⟨64, 0⟩ = some Board.blank :=
  ⟨by decide, C3_apply_noop_when_lookup_none Board.blank ⟨64, 0⟩ (by decide)⟩

/-- C4: the en-passant update diverges from the claim in both directions.
A black pawn double advance e7→e5 (52→36) leaves the target unset (the u8
difference `to - from` wraps to 240 ≠ 16, and the pawn branch never clears),
where the claim requires the midpoint e6 = 44; a one-rank white pawn move
8→16 keeps a stale target (20) instead of clearing it; only the white double
advance 8→24 sets the midpoint (16) as claimed. -/
theorem C4_en_passant_divergence :
    (boardC4.apply ⟨52, 36⟩).map Board.en_pessant_square = some none ∧
    (boardC4s.apply ⟨8, 16⟩).map Board.en_pessant_square = some (some 20) ∧
    (boardC4s.apply ⟨8, 24⟩).map Board.en_pessant_square = some (some 16) := by decide

/-- C5: the parser's field-count check accepts 4–6 fields (and its comment
says fields 5 and 6 may be left out), but the unconditional reads of
`fields[4]` and `fields[5]` then panic for any input with fewer than 6
fields: a valid 4-field record and a valid 5-field record both fail, while
the same record with 6 fields parses. -/
theorem C5_field_count_divergence :
    (Board.from_fen ("8/8/8/8/8/8/8/8 w KQkq -")).isSome = false ∧
    (Board.from_fen ("8/8/8/8/8/8/8/8 w KQkq - 0")).isSome = false ∧
    (Board.from_fen ("8/8/8/8/8/8/8/8 w KQkq - 0 1")).isSome = true := by decide

/-- C6: from the standard starting position `generate_moves` yields exactly
20 moves: 8 single-step white pawn moves (to = from + 8), 8 double-step white
pawn moves (to = from + 16), and 4 white knight moves. -/
theorem C6_start_position_twenty_moves :
    (Board.from_fen startFen).isSome = true ∧
    startBoard.generate_moves.length = 20 ∧
    (startBoard.generate_moves.countP fun m =>
      startBoard.at_ m.from_ == some Piece.PawnWhite && m.to_ == m.from_ + 8) = 8 ∧
    (startBoard.generate_moves.countP fun m =>
      startBoard.at_ m.from_ == some Piece.PawnWhite && m.to_ == m.from_ + 16) = 8 ∧
    (startBoard.generate_moves.countP fun m =>
      startBoard.at_ m.from_ == some Piece.KnightWhite) = 4 := by decide

/-- C7: parsing the standard starting position and re-serializing reproduces
the record verbatim — in particular the placement and side-to-move fields are
identical. -/
theorem C7_start_position_round_trip :
    (Board.from_fen startFen).bind Board.to_fen = some startFen := by decide

/-- C8: the pawn capture candidates `(rank + dir) * 8 + file ± 1` carry no
file-boundary guard, so they wrap across the board edge. At the failing input
(white pawn on a4 = 24, black pawn on h4 = 31) the generator emits the
capture 24→31: square 31 is on the same rank as the pawn (h4), not a
forward-diagonal square, contradicting the claim's no-wrap-around property.
The full result is `[32, 31]` (a5 plus the wrapped capture). -/
theorem C8_pawn_capture_wraparound :
    generate_piece_moves boardC8 Piece.PawnWhite 24 = [32, 31] := by decide

/-- C9: starting from the blank compact board, any finite sequence of
`place`, `clear` and `apply` operations leaves the twelve masks pairwise
disjoint: each square index 0–63 has its bit set in at most one mask. -/
theorem C9_bitboard_masks_disjoint (ops : List BBOp) (i : Nat) (hi : i < 64)
    (p q : Piece)
    (hp : ((BitBoard.blank.runOps ops).maskOf p).testBit i = true)
    (hq : ((BitBoard.blank.runOps ops).maskOf q).testBit i = true) : p = q :=
  disjoint_runOps ops BitBoard.blank disjoint_blank i hi p q hp hq

theorem C9_bitboard_masks_disjoint_witness :
    (0 : Nat) < 64 ∧
    ((BitBoard.blank.runOps [BBOp.place Piece.PawnWhite 0]).maskOf Piece.PawnWhite).testBit 0
      = true ∧
    Piece.PawnWhite = Piece.PawnWhite :=
  ⟨by decide, by decide,
    C9_bitboard_masks_disjoint [BBOp.place Piece.PawnWhite 0] 0 (by decide)
      Piece.PawnWhite Piece.PawnWhite (by decide) (by decide)⟩

/-- C10: the dense board's `at` returns `some` exactly for square indices
below 64 — `some Piece.Null` for an empty in-range square — and `none` exactly
for out-of-range indices; emptiness is signaled by `some Piece.Null`, which is
precisely what `is_empty` tests. -/
theorem C10_dense_at_total_in_range (b : Board) (square : Nat) :
    (b.at_ square).isSome = decide (square < 64) ∧
    b.is_empty square = decide (b.at_ square = some Piece.Null) := by
  by_cases h : square < 64
  · refine ⟨by simp [Board.at_, h], ?_⟩
    simp only [Board.is_empty, Board.at_, dif_pos h]
    generalize b.pieces ⟨square, h⟩ = p
    cases p <;> rfl
  · exact ⟨by simp [Board.at_, h], by simp [Board.is_empty, Board.at_, h]⟩

end Termchess
